import Mathlib

/-!
Verification development for the sci-fi book-club data pipeline
(`src/scifi/utils.py` and `src/scifi/data_processor.py`).

Tables are modelled as lists of rows; polars expressions become Lean
functions on those rows.  Ratings and other float columns are modelled
as `Option ℚ` (polars nulls become `none`); dates are modelled as `Int`
day numbers (only their ordering matters to the claims); text columns
are `String`.

The per-character string helpers below embed the polars string
expressions used by the pipeline (`str.to_lowercase`,
`str.strip_chars`); they are written over `String.data` so that they
evaluate by kernel reduction on concrete inputs.
-/

/-- Embeds `pl.col(...).str.to_lowercase()`: lower-case every character. -/
def lowerStr (s : String) : String := ⟨s.data.map Char.toLower⟩

/-- Embeds `pl.col(...).str.strip_chars()` with no argument: remove leading
and trailing whitespace characters, leaving interior characters untouched. -/
def stripStr (s : String) : String :=
  ⟨((s.data.dropWhile Char.isWhitespace).reverse.dropWhile Char.isWhitespace).reverse⟩

/-- Helper for `collapseWsSpec`: replace each maximal run of whitespace by a
single space and drop a trailing run entirely. -/
def collapseRuns : List Char → List Char
  | [] => []
  | c :: cs =>
    let rest := collapseRuns cs
    if c.isWhitespace then
      match rest with
      | [] => []
      | d :: _ => if d = ' ' then rest else ' ' :: rest
    else c :: rest

/-- Follows the SPECIFICATION's words (not the source): strip leading and
trailing whitespace and collapse each internal run of whitespace to a single
space.  Used only to compare the spec's demand with the source's actual
`str.strip_chars()` behaviour. -/
def collapseWsSpec (s : String) : String :=
  ⟨(collapseRuns s.data).dropWhile (fun c => c = ' ')⟩

/-- Embeds polars mean semantics (`pl.mean`, `pl.mean_horizontal`, pivot
`aggregate_function="mean"`): nulls are ignored; an all-null (or empty)
input yields null. -/
def meanOpt (xs : List (Option ℚ)) : Option ℚ :=
  let vs := xs.filterMap id
  if vs.isEmpty then none else some (vs.sum / (vs.length : ℚ))

/-- Keep the first occurrence of each element, dropping later duplicates
(the order polars group-by/pivot keys appear in). -/
def firstDedupGo {α : Type} [DecidableEq α] (seen : List α) : List α → List α
  | [] => []
  | a :: t => if a ∈ seen then firstDedupGo seen t else a :: firstDedupGo (a :: seen) t

/-- Distinct elements of a list in order of first appearance. -/
def firstDedup {α : Type} [DecidableEq α] (l : List α) : List α := firstDedupGo [] l

/-- Association-list read-out of a rating cell: the value stored under
column `c`, null when the column is absent. -/
def getR (l : List (String × Option ℚ)) (c : String) : Option ℚ :=
  (l.lookup c).getD none

/-- One raw reviewer-export row as scanned from a Goodreads CSV, after the
`cast(..., strict=False)` of `load_and_combine_goodreads_data` (a
non-numeric `My Rating` cell has already become `none`). -/
structure RawGRow where
  exclusiveShelf : String
  title : String
  author : String
  rating : Option ℚ
  avgGoodreads : Option ℚ
  origYear : Option Int
  numPages : Option ℚ
  path : String
deriving DecidableEq

/-- One combined reviewer row, output of the Source Reader
(`load_and_combine_goodreads_data`). -/
structure GRow where
  title : String
  author : String
  rating : Option ℚ
  avgGoodreads : Option ℚ
  origYear : Option Int
  numPages : Option ℚ
  path : String
deriving DecidableEq

/-- Embeds `load_and_combine_goodreads_data` (src/scifi/data_processor.py):
keep rows whose `Exclusive Shelf` is `"read"`, strip whitespace from
`title`/`author`, then keep only rows whose rating is non-null and
strictly positive. -/
def loadAndCombineGoodreadsData (rows : List RawGRow) : List GRow :=
  ((rows.filter (fun r => r.exclusiveShelf == "read")).map
    (fun r =>
      { title := stripStr r.title, author := stripStr r.author,
        rating := r.rating, avgGoodreads := r.avgGoodreads,
        origYear := r.origYear, numPages := r.numPages, path := r.path })).filter
    (fun g =>
      match g.rating with
      | some q => decide (0 < q)
      | none => false)

/-- One row of the pivoted (wide) reviewer table produced by
`pivot_goodreads_data`: one row per book, one rating column per member. -/
structure PivotRow where
  title : String
  author : String
  origYear : Option Int
  avgGoodreads : Option ℚ
  numPages : Option ℚ
  memberRatings : List (String × Option ℚ)
  avgBookclub : Option ℚ
deriving DecidableEq

/-- The pivoted reviewer table: its member-column names plus its rows. -/
structure PivotTable where
  members : List String
  rows : List PivotRow
deriving DecidableEq

/-- Embeds `get_reviewer_mapping` (src/scifi/utils.py): source file path to
member name (the Laurynas entry is commented out in the source). -/
def reviewerMapping : List (String × String) :=
  [("data/goodreads/clean/dion_goodreads_library_export.csv", "Dion"),
   ("data/goodreads/clean/goodreads_library_export-PHT_clean.csv", "Peter"),
   ("data/goodreads/clean/goodreads_library_export-thirsa.csv", "Thirsa"),
   ("data/goodreads/clean/koen_goodreads_library_export.csv", "Koen_v_W"),
   ("data/goodreads/clean/koen_m_goodreads_library_export.csv", "Koen_M"),
   ("data/goodreads/clean/Thomas is een worstje_clean.csv", "Robert"),
   ("data/goodreads/clean/thomas_goodreads_library_export.csv", "Thomas")]

/-- Group key of the window means in `pivot_goodreads_data`:
`(title, author, original_publication_year)`. -/
def gKey (g : GRow) : String × String × Option Int := (g.title, g.author, g.origYear)

/-- Embeds the `with_columns` step of `pivot_goodreads_data`: replace
`average_goodreads_rating` and `number_of_pages` by their means over the
window of rows sharing the same `(title, author, year)` key. -/
def windowMeanRows (rows : List GRow) : List GRow :=
  rows.map (fun g =>
    let grp := rows.filter (fun h => decide (gKey h = gKey g))
    { g with
      avgGoodreads := meanOpt (grp.map (fun h => h.avgGoodreads)),
      numPages := meanOpt (grp.map (fun h => h.numPages)) })

/-- Pivot index key: `(title, author, year, average_goodreads_rating,
number_of_pages)` (the five index columns of the `pivot` call). -/
def pKey (g : GRow) : (String × String × Option Int) × Option ℚ × Option ℚ :=
  (gKey g, g.avgGoodreads, g.numPages)

/-- Embeds `.rename(reviewer_mapping)`: a path column is renamed to the
mapped member name; unmapped names are kept. -/
def renamePath (mapping : List (String × String)) (p : String) : String :=
  (mapping.lookup p).getD p

/-- Embeds `pivot_goodreads_data` (src/scifi/utils.py): window means, pivot
of `path` against `rating` with mean aggregation, rename of the path
columns to member names, and the horizontal mean over the member columns
as `average_bookclub_rating`.  The embedding assumes, as the pipeline
does, that the member columns named by the mapping are the reviewer
columns of the table (a mapped member with no data column reads as null
here, where polars would raise). -/
def pivotGoodreadsData (mapping : List (String × String)) (rows : List GRow) : PivotTable :=
  let rows2 := windowMeanRows rows
  let paths := firstDedup (rows2.map (fun g => g.path))
  let keys := firstDedup (rows2.map pKey)
  { members := paths.map (renamePath mapping),
    rows := keys.map (fun k =>
      let grp := rows2.filter (fun g => decide (pKey g = k))
      let mr := paths.map (fun p =>
        (renamePath mapping p,
         meanOpt ((grp.filter (fun g => g.path == p)).map (fun g => g.rating))))
      { title := k.1.1, author := k.1.2.1, origYear := k.1.2.2,
        avgGoodreads := k.2.1, numPages := k.2.2,
        memberRatings := mr,
        avgBookclub := meanOpt ((mapping.map Prod.snd).map (fun v => getR mr v)) }) }

/-- One meeting-log row, output of `read_bookclub` /
`load_bookclub_data`. -/
structure BookRow where
  idx : Int
  date : Int
  title : String
  author : String
  suggestedBy : String
  location : String
deriving DecidableEq

/-- The join condition of `match_dataframes` on the `title` column: the
lower-cased copies (`temp_match_column`) of the two sides agree. -/
def keyMatches (b : BookRow) (p : PivotRow) : Bool :=
  lowerStr p.title == lowerStr b.title

/-- Embeds `match_dataframes(..., how="inner")`: one output row per pair of
a meeting-log row and a pivot row whose lower-cased titles agree; the
lower-cased `temp_match_column` is dropped again, so each output pair
carries the original-cased rows of both sides. -/
def matchInnerPairs (L : List BookRow) (R : List PivotRow) : List (BookRow × PivotRow) :=
  L.flatMap (fun b => (R.filter (keyMatches b)).map (fun p => (b, p)))

/-- Embeds `match_dataframes(..., how="left")`: every meeting-log row is
kept; a row with no match is paired with nulls for the reviewer side. -/
def matchLeftPairs (L : List BookRow) (R : List PivotRow) : List (BookRow × Option PivotRow) :=
  L.flatMap (fun b =>
    let ms := R.filter (keyMatches b)
    if ms.isEmpty then [(b, none)] else ms.map (fun p => (b, some p)))

/-- Embeds `match_dataframes(..., how="anti")`: the meeting-log rows with
no match on the reviewer side. -/
def matchAntiRows (L : List BookRow) (R : List PivotRow) : List BookRow :=
  L.filter (fun b => (R.filter (keyMatches b)).isEmpty)

/-- Number of reviewer-side rows a meeting-log row matches under the
case-insensitive join key. -/
def matchCount (R : List PivotRow) (b : BookRow) : Nat :=
  (R.filter (keyMatches b)).length

/-- One row of the matched table (inner join of the meeting log with the
pivoted reviewer table).  The non-member columns are exactly the standard
pipeline columns; member rating cells sit in `memberRatings`. -/
structure MatchedRow where
  idx : Int
  date : Int
  title : String
  author : String
  suggestedBy : String
  location : String
  origYear : Option Int
  avgGoodreads : Option ℚ
  numPages : Option ℚ
  avgBookclub : Option ℚ
  memberRatings : List (String × Option ℚ)
deriving DecidableEq

/-- The matched table: its member-column names plus its rows. -/
structure MatchedTable where
  members : List String
  rows : List MatchedRow
deriving DecidableEq

/-- Combination of one joined pair into a matched row: the unsuffixed
`title`/`author` columns of the join output come from the meeting-log
(left) side, the reviewer data from the pivot (right) side. -/
def combineRow (b : BookRow) (p : PivotRow) : MatchedRow :=
  { idx := b.idx, date := b.date, title := b.title, author := b.author,
    suggestedBy := b.suggestedBy, location := b.location,
    origYear := p.origYear, avgGoodreads := p.avgGoodreads,
    numPages := p.numPages, avgBookclub := p.avgBookclub,
    memberRatings := p.memberRatings }

/-- The inner-join matched table handed to the merge step by
`match_and_merge_data`. -/
def matchInnerTable (L : List BookRow) (P : PivotTable) : MatchedTable :=
  { members := P.members,
    rows := (matchInnerPairs L P.rows).map (fun q => combineRow q.1 q.2) }

/-- One manual-overrides row, output of `read_manual_ratings`: a title and
author plus one optional float per member column of the overrides file. -/
structure ManualRow where
  title : String
  author : String
  ratings : List (String × Option ℚ)
deriving DecidableEq

/-- The manual-overrides table.  `members` are its columns other than
`title` and `author` (the `bookclub_members_list` of
`merge_manual_ratings`); they are the member-name columns of the
overrides CSV and are disjoint from the fixed pipeline columns. -/
structure ManualTable where
  members : List String
  rows : List ManualRow
deriving DecidableEq

/-- Rating supplied by the manual side of the left join for column `c`:
null when the row found no manual match. -/
def manualRating (om : Option ManualRow) (c : String) : Option ℚ :=
  match om with
  | none => none
  | some m => getR m.ratings c

/-- Embeds the left join of `merge_manual_ratings`: each matched row is
joined on the lower-cased title (`temp_match_column`) against the manual
table; a row with no manual match keeps nulls, a row with several manual
matches fans out. -/
def leftJoinManual (L : List MatchedRow) (M : List ManualRow) :
    List (MatchedRow × Option ManualRow) :=
  L.flatMap (fun r =>
    let ms := M.filter (fun m => lowerStr m.title == lowerStr r.title)
    if ms.isEmpty then [(r, none)] else ms.map (fun m => (r, some m)))

/-- Member-column schema after the merge: the matched table's member
columns, followed by the manual members that were new (became columns of
their own through the join, per the `elif` branch of
`merge_manual_ratings`). -/
def mergedMembers (mm ms : List String) : List String :=
  mm ++ ms.filter (fun c => decide (c ∉ mm))

/-- Value of member cell `c` after the coalescing step of
`merge_manual_ratings`: for a manual member column already present the
existing rating wins and the manual one is only a fallback
(`pl.coalesce`); for a manual-only column the manual value is kept; a
non-manual column is untouched. -/
def mergeCell (mm ms : List String) (r : MatchedRow) (om : Option ManualRow)
    (c : String) : Option ℚ :=
  if c ∈ ms then
    if c ∈ mm then
      match getR r.memberRatings c with
      | some v => some v
      | none => manualRating om c
    else manualRating om c
  else getR r.memberRatings c

/-- One output row of `merge_manual_ratings`: all non-member columns are
those of the matched row; the member cells are recomputed by `mergeCell`;
the suffixed `*_manual` helper columns and `temp_match_column` have been
dropped. -/
def mergeRow (mm ms : List String) (r : MatchedRow) (om : Option ManualRow) : MatchedRow :=
  { r with memberRatings :=
      (mergedMembers mm ms).map (fun c => (c, mergeCell mm ms r om c)) }

/-- Embeds `merge_manual_ratings` (src/scifi/utils.py): left join on the
lower-cased title, null-coalescing of each manual member column with the
existing one, new columns for manual-only members, and removal of the
temporary and suffixed columns.  Note that `average_bookclub_rating` is
one of the untouched non-member columns: the function does not recompute
it. -/
def mergeManualRatings (matched : MatchedTable) (manual : ManualTable) : MatchedTable :=
  { members := mergedMembers matched.members manual.members,
    rows := (leftJoinManual matched.rows manual.rows).map
      (fun q => mergeRow matched.members manual.members q.1 q.2) }

/-- Python exception classes that can cross the `try` of
`match_and_merge_data`.  The first four are the polars exception classes
a failing `read_csv`/expression can raise; in polars they derive from
`PolarsError`, which subclasses `Exception` directly — none of them is a
`ValueError` or a `FileNotFoundError`. -/
inductive PyErr
  | computeError
  | noDataError
  | columnNotFoundError
  | schemaError
  | valueError
  | fileNotFoundError
deriving DecidableEq

/-- The `except (ValueError, FileNotFoundError)` clause of
`match_and_merge_data`: which exceptions it swallows. -/
def isCaught : PyErr → Bool
  | .valueError => true
  | .fileNotFoundError => true
  | _ => false

/-- Whether an exception is one of the polars exception classes, i.e. one
that a failing parse inside `read_manual_ratings` can actually raise. -/
def isPolarsErr : PyErr → Bool
  | .computeError => true
  | .noDataError => true
  | .columnNotFoundError => true
  | .schemaError => true
  | _ => false

/-- State of the manual-overrides file as seen by `match_and_merge_data`:
either the file is absent (`manual_ratings_path.exists()` is false), or it
is present and `read_manual_ratings` either parsed it or raised. -/
inductive ManualSource
  | absent
  | present (result : Except PyErr ManualTable)

/-- Embeds `match_and_merge_data` (src/scifi/data_processor.py): inner
join for the matched table, anti join for the unmatched residue, then —
only when the overrides file is present — parse it and merge; a raised
exception is swallowed (merge skipped) only when it is a `ValueError` or
`FileNotFoundError`, every other exception propagates to the caller. -/
def matchAndMergeData (bookclubDf : List BookRow) (pivotDf : PivotTable)
    (src : ManualSource) : Except PyErr (MatchedTable × List BookRow) :=
  let matched := matchInnerTable bookclubDf pivotDf
  let unmatched := matchAntiRows bookclubDf pivotDf.rows
  match src with
  | .absent => .ok (matched, unmatched)
  | .present (.error e) =>
      if isCaught e then .ok (matched, unmatched) else .error e
  | .present (.ok manual) => .ok (mergeManualRatings matched manual, unmatched)

/-- Ordering by the meeting `date` column. -/
def dateLe (a b : MatchedRow) : Prop := a.date ≤ b.date

instance : DecidableRel dateLe := fun a b => Int.decLe a.date b.date

instance : IsTotal MatchedRow dateLe := ⟨fun a b => Int.le_total a.date b.date⟩

instance : IsTrans MatchedRow dateLe := ⟨fun _ _ _ => Int.le_trans⟩

/-- Embeds the `.sort("date")` of `process_bookclub_data`: ascending sort
of the matched rows by the meeting date. -/
def sortByDate (rows : List MatchedRow) : List MatchedRow :=
  rows.insertionSort dateLe

/-- Embeds `process_bookclub_data` (src/scifi/data_processor.py) from the
already-scanned raw CSV rows: combine the reviewer exports, pivot them,
match and merge against the meeting log, sort the matched table by date,
and return it together with the untouched unmatched residue and the
untouched combined reviewer table. -/
def processBookclubData (goodreadsRaw : List RawGRow) (bookclubDf : List BookRow)
    (src : ManualSource) : Except PyErr (MatchedTable × List BookRow × List GRow) :=
  let goodreadsDf := loadAndCombineGoodreadsData goodreadsRaw
  let pivotDf := pivotGoodreadsData reviewerMapping goodreadsDf
  match matchAndMergeData bookclubDf pivotDf src with
  | .error e => .error e
  | .ok (processed, unmatched) =>
      .ok ({ processed with rows := sortByDate processed.rows }, unmatched, goodreadsDf)

/-- Whether a column name carries the transient `_manual` join suffix. -/
def hasManualSuffix (c : String) : Bool :=
  List.isSuffixOf ("_manual".data) c.data

/-!  Concrete tables used by the counterexamples and witnesses below. -/

/-- A matched row: Dion rated the book 4, Peter has no export rating, and
the pivot stage set `average_bookclub_rating` to the row mean 4. -/
def ceMatchedRow : MatchedRow :=
  { idx := 1, date := 10, title := "Dune", author := "Herbert",
    suggestedBy := "Thomas", location := "Delft", origYear := none,
    avgGoodreads := none, numPages := none, avgBookclub := some 4,
    memberRatings := [("Dion", some 4), ("Peter", none)] }

/-- A one-row matched table with member columns Dion and Peter. -/
def ceMatched : MatchedTable :=
  { members := ["Dion", "Peter"], rows := [ceMatchedRow] }

/-- A manual override: Peter rated the same book 2. -/
def ceManualRow : ManualRow :=
  { title := "Dune", author := "Herbert", ratings := [("Peter", some 2)] }

/-- A one-row manual-overrides table with member column Peter. -/
def ceManual : ManualTable := { members := ["Peter"], rows := [ceManualRow] }

/-- The row `merge_manual_ratings` produces from `ceMatched` and
`ceManual`: Peter's cell is filled from the manual table, every other
column — `average_bookclub_rating` included — is carried over. -/
def ceMergedRow : MatchedRow :=
  { ceMatchedRow with memberRatings := [("Dion", some 4), ("Peter", some 2)] }

/-- A raw export row marked read whose rating cell is 0. -/
def rawZeroRated : RawGRow :=
  { exclusiveShelf := "read", title := "Dune", author := "Herbert",
    rating := some 0, avgGoodreads := none, origYear := none,
    numPages := none, path := "p" }

/-- A raw export row whose title and author have leading and trailing
whitespace and an internal double space. -/
def rawPaddedTitle : RawGRow :=
  { exclusiveShelf := "read", title := " A  B ", author := " X  Y ",
    rating := some 5, avgGoodreads := none, origYear := none,
    numPages := none, path := "p" }

/-- The Source Reader's output row for `rawPaddedTitle`: trimmed at the
ends, internal double space intact. -/
def cleanPaddedRow : GRow :=
  { title := "A  B", author := "X  Y", rating := some 5,
    avgGoodreads := none, origYear := none, numPages := none, path := "p" }

/-- A meeting-log row for the join counterexamples and witnesses. -/
def c6Book : BookRow :=
  { idx := 1, date := 0, title := "Dune", author := "Herbert",
    suggestedBy := "Thomas", location := "Delft" }

/-- A pivot row whose lower-cased title collides with `c6Book`. -/
def c6PivA : PivotRow :=
  { title := "dune", author := "HerbertA", origYear := none,
    avgGoodreads := none, numPages := none, memberRatings := [],
    avgBookclub := none }

/-- A second pivot row with the same lower-cased title but different
metadata — a duplicate join key on the reviewer side. -/
def c6PivB : PivotRow :=
  { title := "DUNE", author := "HerbertB", origYear := none,
    avgGoodreads := none, numPages := none, memberRatings := [],
    avgBookclub := none }

/-!  Helper lemmas about the list-level embedding. -/

/-- Looking a key up in an association list tabulating `f` over `l`
returns `f` of the key. -/
theorem lookup_map_pair (l : List String) (f : String → Option ℚ) (c : String)
    (h : c ∈ l) : (l.map (fun x => (x, f x))).lookup c = some (f c) := by
  induction l with
  | nil => cases h
  | cons a t ih =>
    simp only [List.map_cons, List.lookup_cons]
    by_cases hc : c = a
    · subst hc; simp
    · have hb : (c == a) = false := by simp [hc]
      rw [hb]
      rcases List.mem_cons.mp h with h1 | h1
      · exact absurd h1 hc
      · exact ih h1

/-- Reading a tabulated member-ratings list at a schema column gives the
tabulated value. -/
theorem getR_map (l : List String) (f : String → Option ℚ) (c : String)
    (h : c ∈ l) : getR (l.map (fun x => (x, f x))) c = f c := by
  simp [getR, lookup_map_pair l f c h]

/-- A matched member column is part of the merged schema. -/
theorem mem_mergedMembers_left {mm ms : List String} {c : String}
    (h : c ∈ mm) : c ∈ mergedMembers mm ms :=
  List.mem_append_left _ h

/-- A manual member column is part of the merged schema. -/
theorem mem_mergedMembers_of_manual {mm ms : List String} {c : String}
    (h : c ∈ ms) : c ∈ mergedMembers mm ms := by
  by_cases hmm : c ∈ mm
  · exact List.mem_append_left _ hmm
  · refine List.mem_append_right _ ?_
    exact List.mem_filter.mpr ⟨h, by simpa using hmm⟩

/-- Conversely, a merged-schema column comes from one of the two input
schemas. -/
theorem mem_of_mem_mergedMembers {mm ms : List String} {c : String}
    (h : c ∈ mergedMembers mm ms) : c ∈ mm ∨ c ∈ ms := by
  rcases List.mem_append.mp h with h1 | h1
  · exact Or.inl h1
  · exact Or.inr (List.mem_filter.mp h1).1

/-- A merged row's member cell holds exactly the coalesced value. -/
theorem getR_mergeRow (mm ms : List String) (r : MatchedRow)
    (om : Option ManualRow) (c : String) (h : c ∈ mergedMembers mm ms) :
    getR (mergeRow mm ms r om).memberRatings c = mergeCell mm ms r om c := by
  simp only [mergeRow]
  exact getR_map (mergedMembers mm ms) (mergeCell mm ms r om) c h

/-- Both components of a pair produced by the manual left join are
accounted for: the matched row comes from the matched table, and the
manual side is either null or a manual row with the same lower-cased
title. -/
theorem mem_leftJoinManual {L : List MatchedRow} {M : List ManualRow}
    {q : MatchedRow × Option ManualRow} (h : q ∈ leftJoinManual L M) :
    q.1 ∈ L ∧ (q.2 = none ∨ ∃ m ∈ M, q.2 = some m ∧
      lowerStr m.title = lowerStr q.1.title) := by
  rcases List.mem_flatMap.mp h with ⟨r, hr, hq⟩
  by_cases he : (M.filter (fun m => lowerStr m.title == lowerStr r.title)).isEmpty
  · rw [if_pos he] at hq
    rcases List.mem_singleton.mp hq with rfl
    exact ⟨hr, Or.inl rfl⟩
  · rw [if_neg he] at hq
    rcases List.mem_map.mp hq with ⟨m, hm, rfl⟩
    rcases List.mem_filter.mp hm with ⟨hmM, hkey⟩
    exact ⟨hr, Or.inr ⟨m, hmM, rfl, by simpa using hkey⟩⟩

/-- Conversely, a matched row and a manual row with the same lower-cased
title appear together among the joined pairs. -/
theorem leftJoinManual_intro {L : List MatchedRow} {M : List ManualRow}
    {r : MatchedRow} {m : ManualRow} (hr : r ∈ L) (hm : m ∈ M)
    (hkey : lowerStr m.title = lowerStr r.title) :
    (r, some m) ∈ leftJoinManual L M := by
  refine List.mem_flatMap.mpr ⟨r, hr, ?_⟩
  have hms : m ∈ M.filter (fun x => lowerStr x.title == lowerStr r.title) :=
    List.mem_filter.mpr ⟨hm, by simpa using hkey⟩
  have hne : (M.filter (fun x => lowerStr x.title == lowerStr r.title)).isEmpty = false := by
    rcases hx : M.filter (fun x => lowerStr x.title == lowerStr r.title) with _ | ⟨a, t⟩
    · rw [hx] at hms; cases hms
    · rw [hx]; rfl
  show (r, some m) ∈
    (if (M.filter (fun x => lowerStr x.title == lowerStr r.title)).isEmpty = true
     then [(r, none)]
     else (M.filter (fun x => lowerStr x.title == lowerStr r.title)).map (fun m => (r, some m)))
  rw [hne]
  simp only [Bool.false_eq_true, if_false]
  exact List.mem_map.mpr ⟨m, hms, rfl⟩

/-- Every output row of the merge is the merged image of some matched
row. -/
theorem mem_merge_rows {matched : MatchedTable} {manual : ManualTable}
    {r' : MatchedRow} (h : r' ∈ (mergeManualRatings matched manual).rows) :
    ∃ r ∈ matched.rows, ∃ om,
      r' = mergeRow matched.members manual.members r om := by
  rcases List.mem_map.mp h with ⟨q, hq, rfl⟩
  have h1 := (mem_leftJoinManual hq).1
  exact ⟨q.1, h1, q.2, rfl⟩

/-!  C1 — the merger does not recompute `average_bookclub_rating`. -/

/-- C1 counterexample: merging `ceManual` into `ceMatched` fills Peter's
null cell with 2, after which the row's member ratings are 4 and 2 with
horizontal mean 3, yet `average_bookclub_rating` still holds the stale
pre-merge value 4 (which was the mean of the pre-merge cells).  The
claim's recompute property is false on this input. -/
theorem C1_counterexample :
    mergeManualRatings ceMatched ceManual =
      { members := ["Dion", "Peter"], rows := [ceMergedRow] }
    ∧ ceMergedRow.avgBookclub = some 4
    ∧ meanOpt (ceMergedRow.memberRatings.map Prod.snd) = some 3
    ∧ meanOpt (ceMatchedRow.memberRatings.map Prod.snd) = some 4
    ∧ some (4 : ℚ) ≠ some 3 := by
  refine ⟨by decide, by decide, ?_, ?_, by decide⟩
  · show meanOpt [some 4, some 2] = some 3
    simp only [meanOpt, List.filterMap, id]
    norm_num
  · show meanOpt [some 4, none] = some 4
    simp only [meanOpt, List.filterMap, id]
    norm_num

/-- C1 (amended): `merge_manual_ratings` carries `average_bookclub_rating`
over from the matched table unchanged — every output row inherits the
value of the matched row it stems from; the average is not recomputed
from the post-coalesce member cells. -/
theorem C1_avg_carried_over (matched : MatchedTable) (manual : ManualTable)
    (r' : MatchedRow) (h : r' ∈ (mergeManualRatings matched manual).rows) :
    ∃ r ∈ matched.rows, r'.avgBookclub = r.avgBookclub ∧ r'.title = r.title := by
  rcases mem_merge_rows h with ⟨r, hr, om, rfl⟩
  exact ⟨r, hr, rfl, rfl⟩

/-- C1 witness: the amended carry-over fact at the concrete tables. -/
theorem C1_avg_carried_over_witness :
    ∃ r ∈ ceMatched.rows,
      ceMergedRow.avgBookclub = r.avgBookclub ∧ ceMergedRow.title = r.title :=
  C1_avg_carried_over ceMatched ceManual ceMergedRow (by decide)

/-!  C2 — zero-rated rows are removed, not retained with a null rating. -/

/-- C2 counterexample: a row marked read with rating 0 is filtered out of
the Source Reader's output entirely — the output contains no row for the
book, contradicting the claim that the row is retained with a null
rating. -/
theorem C2_counterexample :
    rawZeroRated.rating = some 0
    ∧ loadAndCombineGoodreadsData [rawZeroRated] = [] := by
  constructor
  · rfl
  · decide

/-- C2 (amended): the Source Reader removes every row whose rating is
null, zero or negative — each row of its output carries a non-null,
strictly positive rating (so no book row is retained with the rating
normalised to null). -/
theorem C2_nonpositive_removed (rows : List RawGRow) (g : GRow)
    (h : g ∈ loadAndCombineGoodreadsData rows) :
    ∃ q : ℚ, g.rating = some q ∧ 0 < q := by
  rcases List.mem_filter.mp h with ⟨_, hp⟩
  rcases hr : g.rating with _ | q
  · rw [hr] at hp; cases hp
  · rw [hr] at hp
    exact ⟨q, rfl, of_decide_eq_true hp⟩

/-- C2 witness: the amended removal fact at the concrete positive row. -/
theorem C2_nonpositive_removed_witness :
    ∃ q : ℚ, cleanPaddedRow.rating = some q ∧ 0 < q :=
  C2_nonpositive_removed [rawPaddedTitle] cleanPaddedRow (by decide)

/-!  C8 — whitespace is stripped at the ends only, not collapsed. -/

/-- C8 counterexample: the reader maps the title `" A  B "` to `"A  B"` —
the internal double space survives — while the specification's
strip-and-collapse normalisation would give `"A B"`. -/
theorem C8_counterexample :
    loadAndCombineGoodreadsData [rawPaddedTitle] = [cleanPaddedRow]
    ∧ cleanPaddedRow.title = "A  B"
    ∧ collapseWsSpec rawPaddedTitle.title = "A B"
    ∧ cleanPaddedRow.title ≠ collapseWsSpec rawPaddedTitle.title := by
  refine ⟨by decide, rfl, by decide, by decide⟩

/-- C8 (amended): the Source Reader strips leading and trailing
whitespace from `title` and `author` (`str.strip_chars()`), leaving
internal whitespace runs untouched: every output row's title and author
are exactly the end-stripped input values. -/
theorem C8_strip_only (rows : List RawGRow) (g : GRow)
    (h : g ∈ loadAndCombineGoodreadsData rows) :
    ∃ r ∈ rows, g.title = stripStr r.title ∧ g.author = stripStr r.author := by
  rcases List.mem_filter.mp h with ⟨hmem, _⟩
  rcases List.mem_map.mp hmem with ⟨r0, hr0, rfl⟩
  exact ⟨r0, (List.mem_filter.mp hr0).1, rfl, rfl⟩

/-- C8 witness: the amended strip-only fact at the concrete padded row. -/
theorem C8_strip_only_witness :
    ∃ r ∈ [rawPaddedTitle],
      cleanPaddedRow.title = stripStr r.title
      ∧ cleanPaddedRow.author = stripStr r.author :=
  C8_strip_only [rawPaddedTitle] cleanPaddedRow (by decide)

/-!  C3 / C4 — the coalescing and fallback laws of the merge. -/

/-- C3: coalescing law.  Every output row of `merge_manual_ratings` stems
from a matched row, and on every member column where that matched row
already held a non-null export-derived rating the output cell equals that
rating — whatever the manual table contains there. -/
theorem C3_coalescing_law (matched : MatchedTable) (manual : ManualTable)
    (r' : MatchedRow) (h : r' ∈ (mergeManualRatings matched manual).rows) :
    ∃ r ∈ matched.rows, r'.title = r.title ∧
      ∀ c ∈ matched.members, getR r.memberRatings c ≠ none →
        getR r'.memberRatings c = getR r.memberRatings c := by
  rcases mem_merge_rows h with ⟨r, hr, om, rfl⟩
  refine ⟨r, hr, rfl, ?_⟩
  intro c hc hne
  rw [getR_mergeRow _ _ _ _ _ (mem_mergedMembers_left hc)]
  unfold mergeCell
  by_cases hms : c ∈ manual.members
  · rw [if_pos hms, if_pos hc]
    rcases hv : getR r.memberRatings c with _ | v
    · exact absurd hv hne
    · rfl
  · rw [if_neg hms]

/-- C3 witness: the coalescing law at the concrete one-row tables (Dion's
existing rating 4 survives the merge). -/
theorem C3_coalescing_law_witness :
    ∃ r ∈ ceMatched.rows, ceMergedRow.title = r.title ∧
      ∀ c ∈ ceMatched.members, getR r.memberRatings c ≠ none →
        getR ceMergedRow.memberRatings c = getR r.memberRatings c :=
  C3_coalescing_law ceMatched ceManual ceMergedRow (by decide)

/-- C4: fallback law.  When a matched row's member cell is null and a
manual row with the same lower-cased title supplies a non-null rating for
that member, the merge output contains the row joined from the two with
exactly the manual rating in that cell. -/
theorem C4_fallback_law (matched : MatchedTable) (manual : ManualTable)
    (r : MatchedRow) (hr : r ∈ matched.rows) (m : ManualRow)
    (hm : m ∈ manual.rows) (hkey : lowerStr m.title = lowerStr r.title)
    (c : String) (hc : c ∈ manual.members)
    (hnull : getR r.memberRatings c = none) (q : ℚ)
    (hq : getR m.ratings c = some q) :
    ∃ r' ∈ (mergeManualRatings matched manual).rows,
      r'.title = r.title ∧ getR r'.memberRatings c = some q := by
  have hj := leftJoinManual_intro hr hm hkey
  refine ⟨mergeRow matched.members manual.members r (some m),
    List.mem_map.mpr ⟨(r, some m), hj, rfl⟩, rfl, ?_⟩
  rw [getR_mergeRow _ _ _ _ _ (mem_mergedMembers_of_manual hc)]
  unfold mergeCell
  rw [if_pos hc]
  by_cases hcm : c ∈ matched.members
  · rw [if_pos hcm, hnull]
    simpa [manualRating] using hq
  · rw [if_neg hcm]
    simpa [manualRating] using hq

/-- C4 witness: the fallback law at the concrete tables (Peter's null cell
receives the manual rating 2). -/
theorem C4_fallback_law_witness :
    ∃ r' ∈ (mergeManualRatings ceMatched ceManual).rows,
      r'.title = ceMatchedRow.title ∧ getR r'.memberRatings "Peter" = some 2 :=
  C4_fallback_law ceMatched ceManual ceMatchedRow (by decide) ceManualRow
    (by decide) (by decide) "Peter" (by decide) (by decide) 2 (by decide)

/-!  C9 — frame property of the merge. -/

/-- With pairwise-distinct keys, at most one list element carries any
given key. -/
theorem filter_key_length_le_one {α : Type} (key : α → String) (M : List α)
    (k : String) (hN : (M.map key).Nodup) :
    (M.filter (fun x => key x == k)).length ≤ 1 := by
  induction M with
  | nil => simp
  | cons m t ih =>
    rw [List.map_cons, List.nodup_cons] at hN
    rcases hN with ⟨hnm, hnt⟩
    rw [List.filter_cons]
    by_cases hb : (key m == k) = true
    · rw [if_pos hb]
      have hk : key m = k := by simpa using hb
      have ht0 : t.filter (fun x => key x == k) = [] := by
        rw [List.filter_eq_nil_iff]
        intro x hx hxk
        have hxe : key x = k := by simpa using hxk
        exact hnm (List.mem_map.mpr ⟨x, hx, by rw [hxe, hk]⟩)
      rw [ht0]
      simp
    · rw [if_neg hb]
      exact ih hnt

/-- When the manual table's lower-cased titles are pairwise distinct, the
left join against it is row-count preserving. -/
theorem leftJoinManual_length (L : List MatchedRow) (M : List ManualRow)
    (hN : (M.map (fun m => lowerStr m.title)).Nodup) :
    (leftJoinManual L M).length = L.length := by
  induction L with
  | nil => rfl
  | cons r t ih =>
    simp only [leftJoinManual, List.flatMap_cons, List.length_append] at ih ⊢
    have hone :
        (if (M.filter (fun m => lowerStr m.title == lowerStr r.title)).isEmpty = true
         then [(r, (none : Option ManualRow))]
         else (M.filter (fun m => lowerStr m.title == lowerStr r.title)).map
           (fun m => (r, some m))).length = 1 := by
      by_cases he :
          (M.filter (fun m => lowerStr m.title == lowerStr r.title)).isEmpty = true
      · rw [if_pos he]; rfl
      · rw [if_neg he]
        rw [List.length_map]
        have hle :
            (M.filter (fun m => lowerStr m.title == lowerStr r.title)).length ≤ 1 :=
          filter_key_length_le_one (fun m => lowerStr m.title) M
            (lowerStr r.title) hN
        have hne : M.filter (fun m => lowerStr m.title == lowerStr r.title) ≠ [] := by
          intro hc
          exact he (by rw [hc]; rfl)
        have hpos := List.length_pos.mpr hne
        omega
    rw [hone, ih, List.length_cons]
    omega

/-- C9 (frame property): when the override table's lower-cased titles are
pairwise distinct, `merge_manual_ratings` preserves the row count; every
output row inherits all ten non-member columns of the matched row it stems
from, and its member cells outside the override's member list are
unchanged; and — given that no input column carries them — the output
schema contains no `_manual`-suffixed column and no `temp_match_column`
(the function drops the transient join columns it creates). -/
theorem C9_frame (matched : MatchedTable) (manual : ManualTable)
    (hN : (manual.rows.map (fun m => lowerStr m.title)).Nodup)
    (hA : ∀ c ∈ matched.members ++ manual.members,
      hasManualSuffix c = false ∧ c ≠ "temp_match_column") :
    (mergeManualRatings matched manual).rows.length = matched.rows.length
    ∧ (∀ r' ∈ (mergeManualRatings matched manual).rows, ∃ r ∈ matched.rows,
        r'.idx = r.idx ∧ r'.date = r.date ∧ r'.title = r.title
        ∧ r'.author = r.author ∧ r'.suggestedBy = r.suggestedBy
        ∧ r'.location = r.location ∧ r'.origYear = r.origYear
        ∧ r'.avgGoodreads = r.avgGoodreads ∧ r'.numPages = r.numPages
        ∧ r'.avgBookclub = r.avgBookclub
        ∧ ∀ c ∈ matched.members, c ∉ manual.members →
            getR r'.memberRatings c = getR r.memberRatings c)
    ∧ (∀ c ∈ (mergeManualRatings matched manual).members,
        hasManualSuffix c = false ∧ c ≠ "temp_match_column") := by
  refine ⟨?_, ?_, ?_⟩
  · show ((leftJoinManual matched.rows manual.rows).map _).length = _
    rw [List.length_map]
    exact leftJoinManual_length matched.rows manual.rows hN
  · intro r' h
    rcases mem_merge_rows h with ⟨r, hr, om, rfl⟩
    refine ⟨r, hr, rfl, rfl, rfl, rfl, rfl, rfl, rfl, rfl, rfl, rfl, ?_⟩
    intro c hc hcm
    rw [getR_mergeRow _ _ _ _ _ (mem_mergedMembers_left hc)]
    unfold mergeCell
    rw [if_neg hcm]
  · intro c hc
    rcases mem_of_mem_mergedMembers hc with h1 | h1
    · exact hA c (List.mem_append_left _ h1)
    · exact hA c (List.mem_append_right _ h1)

/-!  C6 / C7 — match_dataframes join-count and casing facts. -/

/-- The inner-join output size is the total number of key matches. -/
theorem matchInnerPairs_length (L : List BookRow) (R : List PivotRow) :
    (matchInnerPairs L R).length = (L.map (fun b => matchCount R b)).sum := by
  induction L with
  | nil => rfl
  | cons b t ih =>
    simp only [matchInnerPairs, List.flatMap_cons, List.length_append,
      List.length_map, List.map_cons, List.sum_cons, matchCount] at ih ⊢
    omega

/-- The left-join output size counts each meeting-log row once when it has
no match and once per match otherwise. -/
theorem matchLeftPairs_length (L : List BookRow) (R : List PivotRow) :
    (matchLeftPairs L R).length = (L.map (fun b => max 1 (matchCount R b))).sum := by
  induction L with
  | nil => rfl
  | cons b t ih =>
    simp only [matchLeftPairs, List.flatMap_cons, List.length_append,
      List.map_cons, List.sum_cons] at ih ⊢
    have hone :
        (if (R.filter (keyMatches b)).isEmpty = true
         then [(b, (none : Option PivotRow))]
         else (R.filter (keyMatches b)).map (fun p => (b, some p))).length
          = max 1 (matchCount R b) := by
      by_cases he : (R.filter (keyMatches b)).isEmpty = true
      · rw [if_pos he]
        have h0 : R.filter (keyMatches b) = [] := by
          cases hx : R.filter (keyMatches b) with
          | nil => rfl
          | cons a s => rw [hx] at he; cases he
        rw [matchCount, h0]
        rfl
      · rw [if_neg he, List.length_map]
        have hne : R.filter (keyMatches b) ≠ [] := fun hc => he (by rw [hc]; rfl)
        have hpos := List.length_pos.mpr hne
        rw [matchCount]
        exact (Nat.max_eq_right hpos).symm
    omega

/-- The anti-join output size counts the meeting-log rows with zero
matches. -/
theorem matchAntiRows_length (L : List BookRow) (R : List PivotRow) :
    (matchAntiRows L R).length =
      (L.map (fun b => if matchCount R b = 0 then 1 else 0)).sum := by
  induction L with
  | nil => rfl
  | cons b t ih =>
    simp only [matchAntiRows, List.map_cons, List.sum_cons] at ih ⊢
    rw [List.filter_cons]
    by_cases he : ((R.filter (keyMatches b)).isEmpty) = true
    · rw [if_pos he]
      have h0 : matchCount R b = 0 := by
        rw [matchCount]
        cases hx : R.filter (keyMatches b) with
        | nil => rfl
        | cons a s => rw [hx] at he; cases he
      have hif : (if (0 : Nat) = 0 then 1 else 0) = 1 := rfl
      rw [List.length_cons, h0, ih, hif]
      omega
    · rw [if_neg he]
      have hne : R.filter (keyMatches b) ≠ [] := fun hc => he (by rw [hc]; rfl)
      have hpos := List.length_pos.mpr hne
      have h0 : ¬ matchCount R b = 0 := by rw [matchCount]; omega
      rw [if_neg h0, ih]
      omega

/-- Summing a pointwise-smaller tabulation gives a smaller sum. -/
theorem map_sum_le {α : Type} (l : List α) (f g : α → Nat)
    (h : ∀ x ∈ l, f x ≤ g x) : (l.map f).sum ≤ (l.map g).sum := by
  induction l with
  | nil => simp
  | cons a t ih =>
    simp only [List.map_cons, List.sum_cons]
    have h1 := h a (List.mem_cons_self a t)
    have h2 := ih (fun x hx => h x (List.mem_cons_of_mem a hx))
    omega

/-- A tabulation that is constantly one sums to the list length. -/
theorem map_sum_eq_length {α : Type} (l : List α) (g : α → Nat)
    (h : ∀ x ∈ l, g x = 1) : (l.map g).sum = l.length := by
  induction l with
  | nil => rfl
  | cons a t ih =>
    simp only [List.map_cons, List.sum_cons, List.length_cons]
    rw [h a (List.mem_cons_self a t), ih (fun x hx => h x (List.mem_cons_of_mem a hx))]
    omega

/-- Sums of two tabulations add to the sum of the pointwise addition. -/
theorem map_sum_add {α : Type} (l : List α) (f g : α → Nat) :
    (l.map f).sum + (l.map g).sum = (l.map (fun x => f x + g x)).sum := by
  induction l with
  | nil => rfl
  | cons a t ih =>
    simp only [List.map_cons, List.sum_cons]
    omega

/-- C6 (amended): the join-mode row-count arithmetic of `match_dataframes`
holds under the proviso that the pivoted reviewer table's lower-cased
titles are pairwise distinct (with duplicate reviewer-side keys the joins
fan out and the `left ≤ |log|` and `anti + inner = |log|` identities
fail — see the counterexample): then inner-join size ≤ left-join size ≤
meeting-log size and anti-join size + inner-join size = meeting-log
size. -/
theorem C6_join_counts (L : List BookRow) (R : List PivotRow)
    (hN : (R.map (fun p => lowerStr p.title)).Nodup) :
    (matchInnerPairs L R).length ≤ (matchLeftPairs L R).length
    ∧ (matchLeftPairs L R).length ≤ L.length
    ∧ (matchAntiRows L R).length + (matchInnerPairs L R).length = L.length := by
  have hc1 : ∀ b ∈ L, matchCount R b ≤ 1 := fun b _ => by
    rw [matchCount]
    exact filter_key_length_le_one (fun p => lowerStr p.title) R (lowerStr b.title) hN
  refine ⟨?_, ?_, ?_⟩
  · rw [matchInnerPairs_length, matchLeftPairs_length]
    exact map_sum_le L _ _ (fun b _ => Nat.le_max_right 1 (matchCount R b))
  · rw [matchLeftPairs_length]
    refine le_of_eq (map_sum_eq_length L _ (fun b hb => ?_))
    have h1 := hc1 b hb
    have h2 : matchCount R b = 0 ∨ matchCount R b = 1 := by omega
    rcases h2 with h2 | h2 <;> rw [h2] <;> rfl
  · rw [matchAntiRows_length, matchInnerPairs_length, map_sum_add]
    refine map_sum_eq_length L _ (fun b hb => ?_)
    have h1 := hc1 b hb
    have h2 : matchCount R b = 0 ∨ matchCount R b = 1 := by omega
    rcases h2 with h2 | h2 <;> rw [h2] <;> rfl

/-- C6 witness: the amended count identities at a one-row log and a
one-row reviewer table with distinct keys. -/
theorem C6_join_counts_witness :
    (matchInnerPairs [c6Book] [c6PivA]).length ≤ (matchLeftPairs [c6Book] [c6PivA]).length
    ∧ (matchLeftPairs [c6Book] [c6PivA]).length ≤ [c6Book].length
    ∧ (matchAntiRows [c6Book] [c6PivA]).length
        + (matchInnerPairs [c6Book] [c6PivA]).length = [c6Book].length :=
  C6_join_counts [c6Book] [c6PivA] (by decide)

/-- C6 counterexample: one meeting-log row against two pivot rows whose
lower-cased titles coincide.  The inner and left joins both fan out to two
rows, so the left size exceeds the log size and anti + inner ≠ log size —
the claim's unconditional arithmetic is false. -/
theorem C6_counterexample :
    (matchInnerPairs [c6Book] [c6PivA, c6PivB]).length = 2
    ∧ (matchLeftPairs [c6Book] [c6PivA, c6PivB]).length = 2
    ∧ (matchAntiRows [c6Book] [c6PivA, c6PivB]).length = 0
    ∧ ¬ ((matchLeftPairs [c6Book] [c6PivA, c6PivB]).length ≤ [c6Book].length
         ∧ (matchAntiRows [c6Book] [c6PivA, c6PivB]).length
             + (matchInnerPairs [c6Book] [c6PivA, c6PivB]).length
             = [c6Book].length) := by
  decide

/-- C7: case-insensitive matching with casing preservation.  A pair is in
the inner-join output exactly when its two rows come from the two inputs
and their lower-cased titles agree; and every output row's `title` column
is the meeting-log (left) side's original-cased title, unmutated by the
lower-cased comparison copy. -/
theorem C7_case_insensitive_match (L : List BookRow) (R : List PivotRow)
    (b : BookRow) (p : PivotRow) :
    ((b, p) ∈ matchInnerPairs L R ↔
      b ∈ L ∧ p ∈ R ∧ lowerStr b.title = lowerStr p.title)
    ∧ ∀ q ∈ matchInnerPairs L R,
        (combineRow q.1 q.2).title = q.1.title ∧ q.1 ∈ L := by
  constructor
  · constructor
    · intro h
      rcases List.mem_flatMap.mp h with ⟨b0, hb0, hmem⟩
      rcases List.mem_map.mp hmem with ⟨p0, hp0, heq⟩
      rcases List.mem_filter.mp hp0 with ⟨hp0R, hkey⟩
      injection heq with h1 h2
      subst h1
      subst h2
      refine ⟨hb0, hp0R, ?_⟩
      have hk : lowerStr p0.title = lowerStr b0.title := by
        simpa [keyMatches] using hkey
      exact hk.symm
    · rintro ⟨hb, hp, hk⟩
      refine List.mem_flatMap.mpr ⟨b, hb, ?_⟩
      refine List.mem_map.mpr ⟨p, List.mem_filter.mpr ⟨hp, ?_⟩, rfl⟩
      simp [keyMatches, hk]
  · intro q hq
    rcases List.mem_flatMap.mp hq with ⟨b0, hb0, hmem⟩
    rcases List.mem_map.mp hmem with ⟨p0, _, heq⟩
    subst heq
    exact ⟨rfl, hb0⟩

/-- C7 witness: `"Dune"` in the log matches `"dune"` in the reviewer
table, and the joined row keeps the log's original casing. -/
theorem C7_case_insensitive_match_witness :
    (c6Book, c6PivA) ∈ matchInnerPairs [c6Book] [c6PivA]
    ∧ (combineRow c6Book c6PivA).title = "Dune" :=
  ⟨(C7_case_insensitive_match [c6Book] [c6PivA] c6Book c6PivA).1.mpr
      ⟨by decide, by decide, by decide⟩,
   by decide⟩

/-!  C5 / C10 — error propagation and the final pipeline shape. -/

/-- C5: a present overrides file whose parse raises one of the polars
exception classes (the failures `read_manual_ratings` can actually
produce — none of them a `ValueError` or `FileNotFoundError`, the only
classes the `except` clause swallows) makes `match_and_merge_data`
propagate that error to the caller; an absent file merely skips the merge
and passes the matched and unmatched tables through unchanged. -/
theorem C5_parse_failure_surfaced (B : List BookRow) (P : PivotTable) (e : PyErr)
    (he : isPolarsErr e = true) :
    matchAndMergeData B P (.present (.error e)) = .error e
    ∧ matchAndMergeData B P .absent =
        .ok (matchInnerTable B P, matchAntiRows B P.rows) := by
  constructor
  · cases e <;> first | rfl | exact absurd he (by decide)
  · rfl

/-- C5 witness: the propagation and pass-through facts at empty tables
with a `ComputeError`-style parse failure. -/
theorem C5_parse_failure_surfaced_witness :
    matchAndMergeData [] ⟨[], []⟩ (.present (.error .computeError)) = .error .computeError
    ∧ matchAndMergeData [] ⟨[], []⟩ .absent =
        .ok (matchInnerTable [] ⟨[], []⟩, matchAntiRows [] (⟨[], []⟩ : PivotTable).rows) :=
  C5_parse_failure_surfaced [] ⟨[], []⟩ .computeError rfl

/-- C10: whenever `process_bookclub_data` succeeds, its first returned
table is the match-and-merge result sorted ascending by the meeting date
(a permutation of it), while the unmatched residue and the combined raw
reviewer table are returned exactly as produced by their stages, without
the sort. -/
theorem C10_final_sorted (graw : List RawGRow) (bdf : List BookRow)
    (src : ManualSource) (p : MatchedTable) (u : List BookRow) (g : List GRow)
    (h : processBookclubData graw bdf src = .ok (p, u, g)) :
    List.Sorted (· ≤ ·) (p.rows.map (fun r => r.date))
    ∧ (∃ pre unm,
        matchAndMergeData bdf
            (pivotGoodreadsData reviewerMapping (loadAndCombineGoodreadsData graw)) src
          = .ok (pre, unm)
        ∧ p.members = pre.members ∧ p.rows = sortByDate pre.rows
        ∧ List.Perm p.rows pre.rows ∧ u = unm)
    ∧ g = loadAndCombineGoodreadsData graw := by
  simp only [processBookclubData] at h
  cases hm : matchAndMergeData bdf
      (pivotGoodreadsData reviewerMapping (loadAndCombineGoodreadsData graw)) src with
  | error e =>
    rw [hm] at h
    simp at h
  | ok pr =>
    obtain ⟨pre, unm⟩ := pr
    rw [hm] at h
    simp only [Except.ok.injEq, Prod.mk.injEq] at h
    obtain ⟨h1, h2, h3⟩ := h
    subst h1
    subst h2
    subst h3
    refine ⟨?_, ⟨pre, unm, rfl, rfl, rfl, ?_, rfl⟩, rfl⟩
    · have hs : List.Pairwise dateLe (sortByDate pre.rows) :=
        List.sorted_insertionSort dateLe pre.rows
      exact List.pairwise_map.mpr hs
    · exact List.perm_insertionSort dateLe pre.rows

/-- C10 witness: the sorted-output shape at the empty inputs. -/
theorem C10_final_sorted_witness :
    List.Sorted (· ≤ ·) ((⟨[], []⟩ : MatchedTable).rows.map (fun r => r.date))
    ∧ (∃ pre unm,
        matchAndMergeData []
            (pivotGoodreadsData reviewerMapping (loadAndCombineGoodreadsData [])) .absent
          = .ok (pre, unm)
        ∧ (⟨[], []⟩ : MatchedTable).members = pre.members
        ∧ (⟨[], []⟩ : MatchedTable).rows = sortByDate pre.rows
        ∧ List.Perm (⟨[], []⟩ : MatchedTable).rows pre.rows
        ∧ [] = unm)
    ∧ ([] : List GRow) = loadAndCombineGoodreadsData [] :=
  C10_final_sorted [] [] .absent ⟨[], []⟩ [] [] rfl

/-- C9 witness: the frame property at the concrete one-row tables. -/
theorem C9_frame_witness :
    (mergeManualRatings ceMatched ceManual).rows.length = ceMatched.rows.length
    ∧ (∀ r' ∈ (mergeManualRatings ceMatched ceManual).rows, ∃ r ∈ ceMatched.rows,
        r'.idx = r.idx ∧ r'.date = r.date ∧ r'.title = r.title
        ∧ r'.author = r.author ∧ r'.suggestedBy = r.suggestedBy
        ∧ r'.location = r.location ∧ r'.origYear = r.origYear
        ∧ r'.avgGoodreads = r.avgGoodreads ∧ r'.numPages = r.numPages
        ∧ r'.avgBookclub = r.avgBookclub
        ∧ ∀ c ∈ ceMatched.members, c ∉ ceManual.members →
            getR r'.memberRatings c = getR r.memberRatings c)
    ∧ (∀ c ∈ (mergeManualRatings ceMatched ceManual).members,
        hasManualSuffix c = false ∧ c ≠ "temp_match_column") :=
  C9_frame ceMatched ceManual (by decide) (by decide)
